import Mathlib

/-!
Verification development for the pagemap-scan benchmark
(`src/main.rs` plus the `pagemap` scanner module it declares).

The Rust program allocates an anonymous memory mapping, dirties a prefix of
it, and times three reclamation strategies: a full `memset` (`MemZero`),
zeroing the scan window plus `madvise(MADV_DONTNEED)` on the remainder
(`Madvise`), and a `PAGEMAP_SCAN`-driven targeted zeroing (`PagemapScan`).

The embedding below models:
 - the byte/page state of the mapping (`Region`), with a per-page
   written-since-mapping flag standing for the kernel's soft-dirty state;
 - `setup_memory`, the three strategy runs, and `main`'s validation and
   iteration loop, translated from `src/main.rs`;
 - the dirty-page scanner `dirty_pages_in_region`, whose Rust source
   (`pagemap.rs`) is declared by `mod pagemap;` but is not present under
   `src/`; it is modelled from the spec where noted.

The real program computes the dirty byte count in `f64` arithmetic; the
model uses exact rational arithmetic (`ℚ`) for the dirty fraction, which
matches the spec's description `round(size * dirty_fraction)`.
Syscall outcomes (`madvise` return codes, scanner ioctl success) are
environment inputs to the exit-path and harness models.
-/

namespace PagemapBench

/-- The `Strategy` enum of `src/main.rs` (lines 36-41): the three benchmark
scenarios the program knows. -/
inductive Strategy
  | MemZero
  | Madvise
  | PagemapScan
deriving DecidableEq, Repr

/-- State of one anonymous mapping: its byte size, the byte content at each
offset, and a per-page flag recording whether the page has been written
since the mapping was created (the state `PAGEMAP_SCAN` reports). -/
structure Region where
  size : Nat
  content : Nat → Nat
  written : Nat → Bool

/-- `mmap_anonymous` (main.rs line 145): a fresh private anonymous mapping
is zero-filled and no page has been written yet. -/
def mmapAnonymous (size : Nat) : Region :=
  { size := size, content := fun _ => 0, written := fun _ => false }

/-- `slice.fill(val)` on the byte range `[start, start+len)` of a region
with page size `P`: writes `val` into every byte of the range and marks
every page overlapping the range as written. -/
def fillBytes (r : Region) (P start len val : Nat) : Region :=
  { r with
    content := fun i => if start ≤ i ∧ i < start + len then val else r.content i,
    written := fun p =>
      if max start (p * P) < min (start + len) ((p + 1) * P) then true
      else r.written p }

/-- Two's-complement `usize` subtraction (64-bit): Rust release-mode `a - b`
on `usize` wraps modulo `2^64`.  Used where main.rs subtracts
`total_size - keep_resident_size` (lines 213 and 278). -/
def usizeSub (a b : Nat) : Nat := (a + 2 ^ 64 - b) % 2 ^ 64

/-- The dirty byte count of `setup_memory` (main.rs line 154):
`(total_size as f64 * dirty_fraction).round() as usize`.  Modelled in exact
rational arithmetic; `round` on a nonnegative rational is round-half-up,
agreeing with Rust's round-half-away-from-zero, and the `as usize` cast of
a negative value saturates to `0`, matching `Int.toNat`. -/
def dirtyBytesCount (total_size : Nat) (dirty_fraction : ℚ) : Nat :=
  (round ((total_size : ℚ) * dirty_fraction)).toNat

/-- `setup_memory` (main.rs lines 138-161): map `total_size` bytes, zero the
first `keep_resident_size` bytes to pre-fault them, then write `1` over the
first `dirty_bytes` bytes when that count is positive. -/
def setup_memory (P total_size keep_resident_size : Nat) (dirty_fraction : ℚ) :
    Region :=
  let map := mmapAnonymous total_size
  let map := fillBytes map P 0 keep_resident_size 0
  let dirty_bytes := dirtyBytesCount total_size dirty_fraction
  if dirty_bytes > 0 then fillBytes map P 0 dirty_bytes 1 else map

/-- Modelled from the spec: the coalescing core of the dirty-page scanner
(`pagemap.rs`, declared by `mod pagemap;` in main.rs but absent from
`src/`).  `runsFrom P d i k` walks pages `i, i+1, …, i+k-1` and returns the
maximal runs of pages with `d p = true` as half-open byte ranges, adjacent
dirty pages merged, in ascending order. -/
def runsFrom (P : Nat) (d : Nat → Bool) : Nat → Nat → List (Nat × Nat)
  | _, 0 => []
  | i, k + 1 =>
    if d i then
      match runsFrom P d (i + 1) k with
      | [] => [(i * P, (i + 1) * P)]
      | (s, e) :: rest =>
        if s = (i + 1) * P then (i * P, e) :: rest
        else (i * P, (i + 1) * P) :: (s, e) :: rest
    else runsFrom P d (i + 1) k

/-- Modelled from the spec: `pagemap::dirty_pages_in_region(map, len, buf)`
returns the DirtyPageSet of the window of `len` bytes at the base of the
region — the coalesced, ascending ranges of pages written since mapping.
Ranges are byte offsets from the mapping base; the window holds
`len / P` whole pages. -/
def dirty_pages_in_region (P : Nat) (d : Nat → Bool) (len : Nat) :
    List (Nat × Nat) :=
  runsFrom P d 0 (len / P)

/-- Total byte length of a list of half-open ranges; the `total_zeroed`
accumulator of main.rs lines 262-269. -/
def sumLens (rs : List (Nat × Nat)) : Nat :=
  (rs.map (fun se => se.2 - se.1)).sum

/-- The zeroing loop of main.rs lines 263-269: `fill(0)` over each reported
dirty range. -/
def zeroRanges (r : Region) (P : Nat) (rs : List (Nat × Nat)) : Region :=
  rs.foldl (fun acc se => fillBytes acc P se.1 (se.2 - se.1) 0) r

/-- `madvise(MADV_DONTNEED)` on `[start, start+len)`: the backing is
dropped, subsequent reads observe zero bytes, and pages wholly inside the
range are no longer written-since-mapping. -/
def madviseDontNeed (r : Region) (P start len : Nat) : Region :=
  { r with
    content := fun i => if start ≤ i ∧ i < start + len then 0 else r.content i,
    written := fun p =>
      if start ≤ p * P ∧ (p + 1) * P ≤ start + len then false
      else r.written p }

/-- `run_benchmark_memset` (main.rs lines 163-189), memory effect: set up
the region, then `fill(0)` over all `total_size` bytes. -/
def run_benchmark_memset (P total_size keep_resident_size : Nat)
    (dirty_fraction : ℚ) : Region :=
  let map := setup_memory P total_size keep_resident_size dirty_fraction
  fillBytes map P 0 total_size 0

/-- Result of one `run_benchmark_pagemap_scan` run (memory effect). -/
structure ScanRun where
  region : Region
  ranges : List (Nat × Nat)
  totalZeroed : Nat
  madviseIssued : Bool

/-- `run_benchmark_pagemap_scan` (main.rs lines 242-307), memory effect:
set up the region, scan the `keep_resident_size` window for dirty ranges,
`fill(0)` each reported range accumulating `total_zeroed`, and issue
`madvise(MADV_DONTNEED)` on the remainder exactly when
`total_zeroed == keep_resident_size` (line 271). -/
def run_benchmark_pagemap_scan (P total_size keep_resident_size : Nat)
    (dirty_fraction : ℚ) : ScanRun :=
  let map := setup_memory P total_size keep_resident_size dirty_fraction
  let ranges := dirty_pages_in_region P map.written keep_resident_size
  let zeroed := zeroRanges map P ranges
  let total_zeroed := sumLens ranges
  if total_zeroed = keep_resident_size then
    { region := madviseDontNeed zeroed P keep_resident_size
        (usizeSub total_size keep_resident_size),
      ranges := ranges, totalZeroed := total_zeroed, madviseIssued := true }
  else
    { region := zeroed, ranges := ranges, totalZeroed := total_zeroed,
      madviseIssued := false }

/-! ### Exit-path model

The syscalls can fail; the exit model records, per run, whether a mapping
was created, whether the run returned an error, and how many times
`munmap` was called before returning. -/

/-- Outcome of one strategy run along its control-flow exit path. -/
structure RunExit where
  mapped : Bool
  errored : Bool
  munmapCalls : Nat
deriving DecidableEq, Repr

/-- Exit paths of `run_benchmark_madvise` (main.rs lines 191-240): if
`setup_memory` fails the `?` returns before a mapping exists; if `madvise`
returns nonzero the function returns `Err` at line 220 without reaching the
`munmap` at line 231; otherwise `munmap` runs once and the function
returns `Ok`. -/
def run_benchmark_madvise_exit (mmapOk : Bool) (madviseRet : Int) : RunExit :=
  if ¬ mmapOk then { mapped := false, errored := true, munmapCalls := 0 }
  else if madviseRet ≠ 0 then { mapped := true, errored := true, munmapCalls := 0 }
  else { mapped := true, errored := false, munmapCalls := 1 }

/-- Exit paths of `run_benchmark_pagemap_scan` (main.rs lines 242-307): the
scanner call at line 259 propagates its error with `?` before the `munmap`
at line 298; when the conditional `madvise` is issued and fails, the
function returns `Err` at line 284 without the `munmap`; otherwise `munmap`
runs once. -/
def run_benchmark_pagemap_scan_exit (mmapOk scanOk coverFull : Bool)
    (madviseRet : Int) : RunExit :=
  if ¬ mmapOk then { mapped := false, errored := true, munmapCalls := 0 }
  else if ¬ scanOk then { mapped := true, errored := true, munmapCalls := 0 }
  else if coverFull ∧ madviseRet ≠ 0 then
    { mapped := true, errored := true, munmapCalls := 0 }
  else { mapped := true, errored := false, munmapCalls := 1 }

/-! ### Harness model

`main` (main.rs lines 80-135) validates the dirty fraction, then for each
iteration runs the three strategies in order, propagating any error with
`?` — which returns from `main` at once. -/

/-- Environment for one iteration: outcome of the `madvise` call in
scenario 2, of the scanner ioctl in scenario 3, whether scenario 3's
ranges cover the window (so its conditional `madvise` is issued), and that
`madvise`'s return value. -/
structure Env where
  madviseRet : Int
  scanOk : Bool
  scanCoverFull : Bool
  scanMadviseRet : Int
deriving DecidableEq, Repr

/-- One iteration of main's loop (main.rs lines 109-128): the strategies
that actually start executing, and whether the iteration completed.
`run_benchmark_memset` has no fallible syscall after setup; a failure of
`run_benchmark_madvise` is propagated by `?` before
`run_benchmark_pagemap_scan` is invoked. -/
def iterInvocations (e : Env) : List Strategy × Bool :=
  if e.madviseRet ≠ 0 then ([Strategy.MemZero, Strategy.Madvise], false)
  else if ¬ (e.scanOk ∧ (e.scanCoverFull → e.scanMadviseRet = 0)) then
    ([Strategy.MemZero, Strategy.Madvise, Strategy.PagemapScan], false)
  else ([Strategy.MemZero, Strategy.Madvise, Strategy.PagemapScan], true)

/-- The strategy invocations main performs, tagged with their iteration
index, starting at iteration `i` with `k` iterations remaining: on the
first failed iteration the `?` in the loop body returns from `main`, so no
later invocation happens. -/
def mainInvocations (env : Nat → Env) : Nat → Nat → List (Nat × Strategy)
  | _, 0 => []
  | i, k + 1 =>
    let r := iterInvocations (env i)
    let tagged := r.1.map (fun s => (i, s))
    if r.2 then tagged ++ mainInvocations env (i + 1) k else tagged

/-- The argument validation `main` performs (main.rs lines 80-91): after
parsing the sizes, the only check is that the dirty fraction lies in the
closed interval `[0, 1]`; the sizes `total_size` and `keep_resident_size`
are never compared with each other. -/
def mainValidation (total_size keep_resident_size : Nat)
    (dirty_fraction : ℚ) : Bool :=
  decide (0 ≤ dirty_fraction ∧ dirty_fraction ≤ 1)

/-- `main` (main.rs lines 80-135) as validation plus iteration loop: when
the dirty fraction is out of range, `main` returns an error (line 88)
before any mapping is created or any strategy runs; otherwise it runs the
loop.  Result: (errored before the loop, invocation trace). -/
def mainModel (total_size keep_resident_size : Nat) (dirty_fraction : ℚ)
    (iterations : Nat) (env : Nat → Env) : Bool × List (Nat × Strategy) :=
  if mainValidation total_size keep_resident_size dirty_fraction then
    (false, mainInvocations env 0 iterations)
  else (true, [])

/-- The per-iteration strategy list of main.rs lines 109-128: every
iteration pushes a MemZero result, a Madvise result and a PagemapScan
result, whatever the region size is — there is no size-based dispatch in
the program. -/
def iterationStrategiesFor (total_size : Nat) : List Strategy :=
  [Strategy.MemZero, Strategy.Madvise, Strategy.PagemapScan]

/-- The length argument of the `madvise` call in `run_benchmark_madvise`
(main.rs line 213) and `run_benchmark_pagemap_scan` (line 278):
the `usize` difference `total_size - keep_resident_size`. -/
def madviseLength (total_size keep_resident_size : Nat) : Nat :=
  usizeSub total_size keep_resident_size

/-! ## Claim theorems -/

/-- C1 counterexample: the claim says that at total size 1 MiB (≥ 1 MiB) a
Heuristic dispatcher selects DiscardAdvise (the `madvise` strategy) alone;
but the program runs all three strategies every iteration — its per-size
strategy list at 1 MiB is not `[Madvise]` and still contains `MemZero`. -/
theorem C1_counterexample :
    iterationStrategiesFor (1024 * 1024) ≠ [Strategy.Madvise] ∧
      Strategy.MemZero ∈ iterationStrategiesFor (1024 * 1024) := by
  constructor
  · intro h
    simp [iterationStrategiesFor] at h
  · simp [iterationStrategiesFor]

/-- C1 (amended): the program has no Heuristic strategy and no size-based
dispatch: for every total region size, each iteration runs exactly the
three strategies MemZero, Madvise, PagemapScan in order, and the `Strategy`
enum has no further variant. -/
theorem C1_no_heuristic (sz : Nat) :
    iterationStrategiesFor sz
        = [Strategy.MemZero, Strategy.Madvise, Strategy.PagemapScan] ∧
      ∀ s : Strategy, s = Strategy.MemZero ∨ s = Strategy.Madvise ∨
        s = Strategy.PagemapScan := by
  refine ⟨rfl, ?_⟩
  intro s
  cases s
  · exact Or.inl rfl
  · exact Or.inr (Or.inl rfl)
  · exact Or.inr (Or.inr rfl)

/-- C2 counterexample: when `madvise` fails in `run_benchmark_madvise`, the
mapping was created, the run exits with an error, and `munmap` is called
zero times — the mapping is not released on that exit path. -/
theorem C2_counterexample :
    (run_benchmark_madvise_exit true (-1)).mapped = true ∧
      (run_benchmark_madvise_exit true (-1)).errored = true ∧
      (run_benchmark_madvise_exit true (-1)).munmapCalls ≠ 1 := by
  decide

/-- C2 (amended): the strategy runs release the mapping exactly once on
their successful exit path, but on every error exit path (failed `madvise`,
failed scanner) they return without releasing it: the number of `munmap`
calls is one on success and zero on error. -/
theorem C2_release_paths (mmapOk scanOk coverFull : Bool) (mret sret : Int) :
    (run_benchmark_madvise_exit mmapOk mret).munmapCalls
        = (if (run_benchmark_madvise_exit mmapOk mret).errored then 0 else 1) ∧
      (run_benchmark_pagemap_scan_exit mmapOk scanOk coverFull sret).munmapCalls
        = (if (run_benchmark_pagemap_scan_exit mmapOk scanOk coverFull
            sret).errored then 0 else 1) := by
  constructor
  · unfold run_benchmark_madvise_exit
    split
    · rfl
    · split
      · rfl
      · rfl
  · unfold run_benchmark_pagemap_scan_exit
    split
    · rfl
    · split
      · rfl
      · split
        · rfl
        · rfl

/-- C3 counterexample: with two iterations configured and the `madvise`
call failing in iteration 0, the sibling strategy `PagemapScan` of
iteration 0 is never invoked, and neither is anything of iteration 1 —
contradicting the claim that siblings and later iterations still run. -/
theorem C3_counterexample :
    (0, Strategy.PagemapScan) ∉
      mainInvocations
        (fun _ => { madviseRet := -1, scanOk := true, scanCoverFull := false,
                    scanMadviseRet := 0 }) 0 2 ∧
      (1, Strategy.MemZero) ∉
        mainInvocations
          (fun _ => { madviseRet := -1, scanOk := true, scanCoverFull := false,
                      scanMadviseRet := 0 }) 0 2 := by
  decide

/-- C3 (amended): a syscall error in a strategy aborts the whole benchmark:
`main` propagates the first error with `?`, so when `madvise` fails in
iteration 0, the invocation trace stops after MemZero and Madvise of
iteration 0 — no sibling PagemapScan run and no later iteration executes,
however many iterations were configured. -/
theorem C3_error_aborts_all (env : Nat → Env) (n : Nat) (h1 : 1 ≤ n)
    (h2 : (env 0).madviseRet ≠ 0) :
    mainInvocations env 0 n = [(0, Strategy.MemZero), (0, Strategy.Madvise)] := by
  cases n with
  | zero => omega
  | succ k =>
    unfold mainInvocations iterInvocations
    simp [h2]

/-- C3 witness. -/
theorem C3_error_aborts_all_witness :
    mainInvocations
        (fun _ => { madviseRet := -1, scanOk := true, scanCoverFull := false,
                    scanMadviseRet := 0 }) 0 2
      = [(0, Strategy.MemZero), (0, Strategy.Madvise)] :=
  C3_error_aborts_all
    (fun _ => { madviseRet := -1, scanOk := true, scanCoverFull := false,
                scanMadviseRet := 0 }) 2 (by decide) (by decide)

/-- C4: for a dirty fraction in `[0, 1]`, the setup step writes the fixed
non-zero pattern (byte value 1) over exactly `round(S * f)` bytes — a count
that never exceeds `S` — starting at the base of the region; and for
`S = 1 MiB`, `f = 1/10` that count is exactly 104858 bytes. -/
theorem C4_dirty_prefix (P S K i : Nat) (f : ℚ) (h0 : 0 ≤ f) (h1 : f ≤ 1) :
    dirtyBytesCount S f ≤ S ∧
      ((setup_memory P S K f).content i = 1 ↔ i < dirtyBytesCount S f) ∧
      dirtyBytesCount 1048576 (1 / 10) = 104858 := by
  refine ⟨?_, ?_, ?_⟩
  · have hle : (S : ℚ) * f ≤ (S : ℚ) := by
      calc (S : ℚ) * f ≤ (S : ℚ) * 1 :=
            mul_le_mul_of_nonneg_left h1 (by positivity)
        _ = (S : ℚ) := mul_one _
    have hr : round ((S : ℚ) * f) ≤ round ((S : ℚ)) := by
      rw [round_eq, round_eq]
      exact Int.floor_le_floor (by linarith)
    have hcast : round ((S : ℚ)) = (S : ℤ) := round_natCast S
    exact Int.toNat_le.mpr (le_of_le_of_eq hr hcast)
  · unfold setup_memory
    by_cases h : dirtyBytesCount S f > 0
    · simp only [h, if_pos]
      simp only [fillBytes, mmapAnonymous]
      simp only [Nat.zero_le, true_and, Nat.zero_add]
      split_ifs <;> simp <;> omega
    · simp only [h, if_neg, not_false_iff]
      simp only [fillBytes, mmapAnonymous]
      simp only [Nat.zero_le, true_and, Nat.zero_add]
      split_ifs <;> simp <;> omega
  · unfold dirtyBytesCount
    have hr : round (((1048576 : Nat) : ℚ) * (1 / 10)) = 104858 := by
      norm_num [round_eq]
    rw [hr]
    rfl

/-- C4 witness. -/
theorem C4_dirty_prefix_witness :
    dirtyBytesCount 1048576 (1 / 10) ≤ 1048576 ∧
      ((setup_memory 4096 1048576 131072 (1 / 10)).content 5 = 1 ↔
        5 < dirtyBytesCount 1048576 (1 / 10)) ∧
      dirtyBytesCount 1048576 (1 / 10) = 104858 :=
  C4_dirty_prefix 4096 1048576 131072 5 (1 / 10) (by norm_num) (by norm_num)

/-- C7 counterexample: with a region of two pages (`S = 8192`, `P = 4096`),
scan window `K = 4096` and dirty fraction `0`, the byte `4096` of the
second page lies inside the region, yet after region creation and setup the
second page has never been written — region creation does not pre-fault
every page of the full region. -/
theorem C7_counterexample :
    1 * 4096 < 8192 ∧ (setup_memory 4096 8192 4096 0).written 1 = false := by
  have hdb : dirtyBytesCount 8192 0 = 0 := by
    norm_num [dirtyBytesCount]
  refine ⟨by norm_num, ?_⟩
  simp [setup_memory, hdb, fillBytes, mmapAnonymous]

/-- C7 (amended): setup has no `force_resident` flag and never pre-faults
the whole region: it unconditionally zero-fills the first
`keep_resident_size` bytes, so after setup a page has been written exactly
when it starts below the scan-window boundary or below the dirty-prefix
boundary — pages of the region beyond both are untouched. -/
theorem C7_prefault_window_only (P S K p : Nat) (f : ℚ) (hP : 0 < P) :
    (setup_memory P S K f).written p = true ↔
      p * P < K ∨ p * P < dirtyBytesCount S f := by
  have hrw : (p + 1) * P = p * P + P := by ring
  unfold setup_memory
  by_cases h : dirtyBytesCount S f > 0
  · simp only [h, if_pos]
    simp only [fillBytes, mmapAnonymous]
    simp only [Nat.zero_add, Nat.max_eq_right (Nat.zero_le _), lt_min_iff]
    split_ifs <;> simp <;> omega
  · simp only [h, if_neg, not_false_iff]
    simp only [fillBytes, mmapAnonymous]
    simp only [Nat.zero_add, Nat.max_eq_right (Nat.zero_le _), lt_min_iff]
    split_ifs <;> simp <;> omega

/-- C7 witness. -/
theorem C7_prefault_window_only_witness :
    (setup_memory 4096 8192 4096 0).written 0 = true ↔
      0 * 4096 < 4096 ∨ 0 * 4096 < dirtyBytesCount 8192 0 :=
  C7_prefault_window_only 4096 8192 4096 0 0 (by norm_num)

/-- C6: in `run_benchmark_pagemap_scan`, the advisory-discard call on the
remainder of the region is issued exactly when the bytes zeroed from the
reported dirty ranges total the scan window length. -/
theorem C6_madvise_iff_full_cover (P S K : Nat) (f : ℚ) :
    (run_benchmark_pagemap_scan P S K f).madviseIssued = true ↔
      sumLens (dirty_pages_in_region P (setup_memory P S K f).written K) = K := by
  by_cases h :
      sumLens (dirty_pages_in_region P (setup_memory P S K f).written K) = K
  · simp [run_benchmark_pagemap_scan, h]
  · simp [run_benchmark_pagemap_scan, h]

/-- `sumLens` on the empty list. -/
theorem sumLens_nil : sumLens [] = 0 := rfl

/-- `sumLens` on a cons. -/
theorem sumLens_cons (a b : Nat) (l : List (Nat × Nat)) :
    sumLens ((a, b) :: l) = (b - a) + sumLens l := by
  simp [sumLens]

/-- Structural invariants of the scanner's coalescing walk over the pages
`i, …, i+k-1`: every returned range is non-empty and lies inside the walked
byte span; any two ranges in order of appearance are separated by a
positive gap (so the list is ascending, disjoint and non-adjacent); and the
ranges' total length is at most the span length `k * P`. -/
theorem runsFrom_inv (P : Nat) (hP : 0 < P) (d : Nat → Bool) :
    ∀ k i,
      (∀ se ∈ runsFrom P d i k,
          i * P ≤ se.1 ∧ se.1 < se.2 ∧ se.2 ≤ (i + k) * P) ∧
        List.Pairwise (fun a b : Nat × Nat => a.2 < b.1) (runsFrom P d i k) ∧
        sumLens (runsFrom P d i k) ≤ k * P := by
  intro k
  induction k with
  | zero =>
    intro i
    simp [runsFrom, sumLens]
  | succ k ih =>
    intro i
    obtain ⟨ihmem, ihpw, ihsum⟩ := ih (i + 1)
    have e2 : (i + 1) * P = i * P + P := by ring
    have e3 : (k + 1) * P = k * P + P := by ring
    have e4 : (i + 1 + k) * P = i * P + k * P + P := by ring
    have e5 : (i + (k + 1)) * P = i * P + k * P + P := by ring
    by_cases hd : d i
    · rcases hrec : runsFrom P d (i + 1) k with _ | ⟨⟨s, e⟩, rest⟩
      · have hres : runsFrom P d i (k + 1) = [(i * P, (i + 1) * P)] := by
          simp [runsFrom, hd, hrec]
        rw [hres]
        refine ⟨?_, ?_, ?_⟩
        · intro se hse
          simp only [List.mem_singleton] at hse
          subst hse
          refine ⟨le_refl _, ?_, ?_⟩ <;> omega
        · simp
        · rw [sumLens_cons, sumLens_nil]
          omega
      · rw [hrec] at ihmem ihpw ihsum
        have hhead := ihmem (s, e) (List.mem_cons_self _ _)
        by_cases hs : s = (i + 1) * P
        · have hres : runsFrom P d i (k + 1) = (i * P, e) :: rest := by
            simp [runsFrom, hd, hrec, hs]
          rw [hres]
          rw [List.pairwise_cons] at ihpw
          refine ⟨?_, ?_, ?_⟩
          · intro se hse
            rcases List.mem_cons.mp hse with h1 | h1
            · subst h1
              refine ⟨le_refl _, ?_, ?_⟩ <;> omega
            · have := ihmem se (List.mem_cons_of_mem _ h1)
              refine ⟨?_, this.2.1, ?_⟩ <;> omega
          · rw [List.pairwise_cons]
            exact ⟨ihpw.1, ihpw.2⟩
          · rw [sumLens_cons]
            rw [sumLens_cons] at ihsum
            omega
        · have hres : runsFrom P d i (k + 1)
              = (i * P, (i + 1) * P) :: (s, e) :: rest := by
            simp [runsFrom, hd, hrec, hs]
          rw [hres]
          refine ⟨?_, ?_, ?_⟩
          · intro se hse
            rcases List.mem_cons.mp hse with h1 | h1
            · subst h1
              refine ⟨le_refl _, ?_, ?_⟩ <;> omega
            · have := ihmem se h1
              refine ⟨?_, this.2.1, ?_⟩ <;> omega
          · rw [List.pairwise_cons]
            refine ⟨?_, ihpw⟩
            intro y hy
            have := ihmem y hy
            rcases List.mem_cons.mp hy with h1 | h1
            · subst h1
              omega
            · rw [List.pairwise_cons] at ihpw
              have h2 := ihpw.1 y h1
              omega
          · rw [sumLens_cons, sumLens_cons]
            rw [sumLens_cons] at ihsum
            omega
    · have hres : runsFrom P d i (k + 1) = runsFrom P d (i + 1) k := by
        simp [runsFrom, hd]
      rw [hres]
      refine ⟨?_, ihpw, ?_⟩
      · intro se hse
        have := ihmem se hse
        refine ⟨?_, this.2.1, ?_⟩ <;> omega
      · omega

/-- C8: every DirtyPageSet the scanner returns is pairwise separated —
earlier ranges end strictly before later ranges begin, so the sequence is
ascending, disjoint and non-adjacent — each range is non-empty, and the sum
of the range lengths never exceeds the scanned window length. -/
theorem C8_dirty_page_set_invariants (P len : Nat) (d : Nat → Bool)
    (hP : 0 < P) :
    List.Pairwise (fun a b : Nat × Nat => a.2 < b.1)
        (dirty_pages_in_region P d len) ∧
      (∀ se ∈ dirty_pages_in_region P d len, se.1 < se.2) ∧
      sumLens (dirty_pages_in_region P d len) ≤ len := by
  obtain ⟨hmem, hpw, hsum⟩ := runsFrom_inv P hP d (len / P) 0
  refine ⟨hpw, fun se h => (hmem se h).2.1, ?_⟩
  calc sumLens (dirty_pages_in_region P d len) ≤ len / P * P := hsum
    _ ≤ len := Nat.div_mul_le_self len P

/-- C8 witness. -/
theorem C8_dirty_page_set_invariants_witness :
    List.Pairwise (fun a b : Nat × Nat => a.2 < b.1)
        (dirty_pages_in_region 4096 (fun p => decide (p = 1)) 16384) ∧
      (∀ se ∈ dirty_pages_in_region 4096 (fun p => decide (p = 1)) 16384,
        se.1 < se.2) ∧
      sumLens (dirty_pages_in_region 4096 (fun p => decide (p = 1)) 16384)
        ≤ 16384 :=
  C8_dirty_page_set_invariants 4096 16384 (fun p => decide (p = 1))
    (by norm_num)

/-- Invariant of anonymous mappings: a mapping starts all-zero, so any
byte that is nonzero lies in a page that has been written since mapping. -/
def ContentDirty (P : Nat) (r : Region) : Prop :=
  ∀ i, r.content i ≠ 0 → r.written (i / P) = true

/-- A fresh anonymous mapping satisfies the invariant. -/
theorem mmapAnonymous_contentDirty (P S : Nat) :
    ContentDirty P (mmapAnonymous S) := by
  intro i h
  simp [mmapAnonymous] at h

/-- `fillBytes` preserves the invariant: the bytes it writes lie in pages
it marks written, and it never clears a written flag. -/
theorem fillBytes_contentDirty (P : Nat) (hP : 0 < P) (r : Region)
    (h : ContentDirty P r) (a len v : Nat) :
    ContentDirty P (fillBytes r P a len v) := by
  intro i hi
  simp only [fillBytes] at hi ⊢
  by_cases hin : a ≤ i ∧ i < a + len
  · have h1 : i / P * P ≤ i := Nat.div_mul_le_self i P
    have h2 : i < i / P * P + P := Nat.lt_div_mul_add hP
    have h3 : (i / P + 1) * P = i / P * P + P := by ring
    have hc : max a (i / P * P) < min (a + len) ((i / P + 1) * P) := by
      rw [h3]
      omega
    rw [if_pos hc]
  · rw [if_neg hin] at hi
    have hw := h i hi
    split
    · rfl
    · exact hw

/-- Completeness of the scanner walk: every written page inside the walked
span is covered by one of the returned ranges. -/
theorem runsFrom_complete (P : Nat) (hP : 0 < P) (d : Nat → Bool) :
    ∀ k i p, i ≤ p → p < i + k → d p = true →
      ∃ se ∈ runsFrom P d i k, se.1 ≤ p * P ∧ (p + 1) * P ≤ se.2 := by
  intro k
  induction k with
  | zero =>
    intro i p h1 h2
    omega
  | succ k ih =>
    intro i p h1 h2 hdp
    by_cases hd : d i
    · rcases hrec : runsFrom P d (i + 1) k with _ | ⟨⟨s, e⟩, rest⟩
      · have hres : runsFrom P d i (k + 1) = [(i * P, (i + 1) * P)] := by
          simp [runsFrom, hd, hrec]
        rcases Nat.eq_or_lt_of_le h1 with he | hlt
        · subst he
          refine ⟨(i * P, (i + 1) * P), by simp [hres], le_refl _, le_refl _⟩
        · obtain ⟨se, hse, _⟩ := ih (i + 1) p hlt (by omega) hdp
          rw [hrec] at hse
          simp at hse
      · have hinv := (runsFrom_inv P hP d k (i + 1)).1
        rw [hrec] at hinv
        have hhead := hinv (s, e) (List.mem_cons_self _ _)
        by_cases hs : s = (i + 1) * P
        · have hres : runsFrom P d i (k + 1) = (i * P, e) :: rest := by
            simp [runsFrom, hd, hrec, hs]
          rcases Nat.eq_or_lt_of_le h1 with he | hlt
          · subst he
            refine ⟨(i * P, e), by simp [hres], le_refl _, ?_⟩
            have he2 : (i + 1) * P = i * P + P := by ring
            omega
          · obtain ⟨se, hse, hc1, hc2⟩ := ih (i + 1) p hlt (by omega) hdp
            rw [hrec] at hse
            rcases List.mem_cons.mp hse with h3 | h3
            · refine ⟨(i * P, e), by simp [hres], ?_, ?_⟩
              · have hle : i * P ≤ s := by
                  have : i * P ≤ (i + 1) * P := by
                    have : (i + 1) * P = i * P + P := by ring
                    omega
                  omega
                have : s ≤ p * P := by rw [h3] at hc1; exact hc1
                omega
              · rw [h3] at hc2
                exact hc2
            · exact ⟨se, by rw [hres]; exact List.mem_cons_of_mem _ h3, hc1, hc2⟩
        · have hres : runsFrom P d i (k + 1)
              = (i * P, (i + 1) * P) :: (s, e) :: rest := by
            simp [runsFrom, hd, hrec, hs]
          rcases Nat.eq_or_lt_of_le h1 with he | hlt
          · subst he
            exact ⟨(i * P, (i + 1) * P), by simp [hres], le_refl _, le_refl _⟩
          · obtain ⟨se, hse, hc1, hc2⟩ := ih (i + 1) p hlt (by omega) hdp
            rw [hrec] at hse
            exact ⟨se, by rw [hres]; exact List.mem_cons_of_mem _ hse, hc1, hc2⟩
    · have : p ≠ i := by
        intro he
        rw [he] at hdp
        exact hd (by simp [hdp])
      obtain ⟨se, hse, hc⟩ := ih (i + 1) p (by omega) (by omega) hdp
      have hres : runsFrom P d i (k + 1) = runsFrom P d (i + 1) k := by
        simp [runsFrom, hd]
      exact ⟨se, by rw [hres]; exact hse, hc⟩

/-- Zeroing ranges with `fill(0)` keeps a zero byte zero. -/
theorem zeroRanges_content_zero (P : Nat) (r : Region) (rs : List (Nat × Nat))
    (i : Nat) (h : r.content i = 0) : (zeroRanges r P rs).content i = 0 := by
  induction rs generalizing r with
  | nil => exact h
  | cons a tl ih =>
    simp only [zeroRanges, List.foldl_cons] at ih ⊢
    apply ih
    simp only [fillBytes]
    split
    · rfl
    · exact h

/-- A byte covered by one of the zeroed ranges is zero afterwards. -/
theorem zeroRanges_content_covered (P : Nat) (r : Region)
    (rs : List (Nat × Nat)) (s e i : Nat) (hmem : (s, e) ∈ rs) (h1 : s ≤ i)
    (h2 : i < e) : (zeroRanges r P rs).content i = 0 := by
  induction rs generalizing r with
  | nil => simp at hmem
  | cons a tl ih
  => rcases List.mem_cons.mp hmem with he | hm
     · simp only [zeroRanges, List.foldl_cons]
       apply zeroRanges_content_zero
       rw [← he]
       simp only [fillBytes]
       rw [if_pos ⟨h1, by omega⟩]
     · simp only [zeroRanges, List.foldl_cons] at ih ⊢
       exact ih _ hm

/-- Within the scan window, the final content of the PagemapScan run is
that of the zeroing loop: the conditional remainder `madvise` only touches
bytes at offsets `≥ keep_resident_size`. -/
theorem run_pagemap_region_content (P S K i : Nat) (f : ℚ) (hi : i < K) :
    (run_benchmark_pagemap_scan P S K f).region.content i
      = (zeroRanges (setup_memory P S K f) P
          (dirty_pages_in_region P (setup_memory P S K f).written K)).content
          i := by
  by_cases hz :
      sumLens (dirty_pages_in_region P (setup_memory P S K f).written K) = K
  · simp only [run_benchmark_pagemap_scan, hz, if_pos]
    simp only [madviseDontNeed]
    rw [if_neg (by omega)]
  · simp only [run_benchmark_pagemap_scan, hz, if_neg, not_false_iff]

/-- C5: for the same region size, scan window and dirty fraction, the
FullZero (`memset`) strategy and the ScanAndZero (`pagemap_scan`) strategy
leave identical final content over the scanned window — every byte of the
window is zero after either run. -/
theorem C5_fullzero_scanandzero_agree (P S K : Nat) (f : ℚ) (hP : 0 < P)
    (hdvd : P ∣ K) (hKS : K ≤ S) (i : Nat) (hi : i < K) :
    (run_benchmark_memset P S K f).content i = 0 ∧
      (run_benchmark_pagemap_scan P S K f).region.content i = 0 := by
  constructor
  · simp only [run_benchmark_memset, fillBytes]
    rw [if_pos ⟨Nat.zero_le _, by omega⟩]
  · rw [run_pagemap_region_content P S K i f hi]
    have hcd : ContentDirty P (setup_memory P S K f) := by
      unfold setup_memory
      by_cases h : dirtyBytesCount S f > 0
      · simp only [h, if_pos]
        exact fillBytes_contentDirty P hP _
          (fillBytes_contentDirty P hP _ (mmapAnonymous_contentDirty P S) _ _ _)
          _ _ _
      · simp only [h, if_neg, not_false_iff]
        exact fillBytes_contentDirty P hP _ (mmapAnonymous_contentDirty P S)
          _ _ _
    by_cases hw : (setup_memory P S K f).written (i / P) = true
    · have hpage : i / P < K / P := Nat.div_lt_div_of_lt_of_dvd hdvd hi
      obtain ⟨se, hse, hc1, hc2⟩ :=
        runsFrom_complete P hP (setup_memory P S K f).written (K / P) 0 (i / P)
          (Nat.zero_le _) (by omega) hw
      rcases se with ⟨s, e⟩
      apply zeroRanges_content_covered P _ _ s e i hse
      · calc s ≤ i / P * P := hc1
          _ ≤ i := Nat.div_mul_le_self i P
      · calc i < i / P * P + P := Nat.lt_div_mul_add hP
          _ = (i / P + 1) * P := by ring
          _ ≤ e := hc2
    · have h0 : (setup_memory P S K f).content i = 0 := by
        by_contra hc
        exact hw (hcd i hc)
      exact zeroRanges_content_zero P _ _ i h0

/-- C5 witness. -/
theorem C5_fullzero_scanandzero_agree_witness :
    (run_benchmark_memset 4096 8192 4096 (1 / 2)).content 0 = 0 ∧
      (run_benchmark_pagemap_scan 4096 8192 4096 (1 / 2)).region.content 0
        = 0 :=
  C5_fullzero_scanandzero_agree 4096 8192 4096 (1 / 2) (by norm_num)
    (by norm_num) (by norm_num) 0 (by norm_num)

/-- C9: `main` validates the dirty fraction before any core work: for a
fraction outside `[0, 1]` it errors with an empty invocation trace (no
mapping is created, no strategy runs); for a fraction inside `[0, 1]` the
validation passes and `main` proceeds to the benchmark loop. -/
theorem C9_dirty_fraction_validation (S K : Nat) (f : ℚ) (iters : Nat)
    (env : Nat → Env) :
    (¬ (0 ≤ f ∧ f ≤ 1) → mainModel S K f iters env = (true, [])) ∧
      ((0 ≤ f ∧ f ≤ 1) → (mainModel S K f iters env).1 = false) := by
  constructor
  · intro h
    simp [mainModel, mainValidation, h]
  · intro h
    simp [mainModel, mainValidation, h]

/-- C9 witness. -/
theorem C9_dirty_fraction_validation_witness :
    mainModel 1024 512 2 1
        (fun _ => { madviseRet := 0, scanOk := true, scanCoverFull := false,
                    scanMadviseRet := 0 })
      = (true, []) :=
  (C9_dirty_fraction_validation 1024 512 2 1
      (fun _ => { madviseRet := 0, scanOk := true, scanCoverFull := false,
                  scanMadviseRet := 0 })).1 (by norm_num)

/-- C10: `main` never compares `keep_resident_size` with `total_size` —
its validation passes for any size pair (including `K > S`) whenever the
dirty fraction is in range, so such a configuration reaches the
subtraction and the pre-fault fill unchecked; under the precondition
`K ≤ S` the `usize` length `total_size - keep_resident_size` does not
underflow (it equals the exact difference and tiles the region), and the
pre-fault fill stays inside the mapping; while for `K > S` the `usize`
subtraction wraps, as at `S = 4096`, `K = 8192`. -/
theorem C10_no_keep_resident_check (S K i : Nat) (f : ℚ) :
    ((0 ≤ f ∧ f ≤ 1) → mainValidation S K f = true) ∧
      (K ≤ S → S < 2 ^ 64 →
        madviseLength S K = S - K ∧ K + madviseLength S K = S ∧
          (i < K → i < S)) ∧
      madviseLength 4096 8192 = 2 ^ 64 - 4096 := by
  refine ⟨?_, ?_, ?_⟩
  · intro h
    simp [mainValidation, h]
  · intro hKS hS
    have h1 : madviseLength S K = S - K := by
      unfold madviseLength usizeSub
      omega
    exact ⟨h1, by omega, by omega⟩
  · unfold madviseLength usizeSub
    norm_num

/-- C10 witness. -/
theorem C10_no_keep_resident_check_witness :
    mainValidation 8192 4096 (1 / 2) = true ∧
      madviseLength 8192 4096 = 8192 - 4096 := by
  have h := C10_no_keep_resident_check 8192 4096 0 (1 / 2)
  exact ⟨h.1 (by norm_num), (h.2.1 (by norm_num) (by norm_num)).1⟩

end PagemapBench
